import Mathlib

/-
Verification development for `src/core/components/keep-alive.ts`:
a bounded, pattern-filtered component-instance cache (`keep-alive`).

The embedding is shallow and executable.  JavaScript records are modelled
as insertion-ordered association lists, JS `undefined`/`null` as `Option`,
thrown exceptions as an `Option` result (`none` = the call threw), and the
external `$destroy` effect as an append-only log of destroyed instance
handles.  Component instances themselves are opaque and represented by
`Nat` handles.
-/

set_option autoImplicit false

namespace KeepAliveSpec

/-! ## JS value helpers -/

/-- Truthiness of an optional JS string: `undefined`, `null` and `""` are
falsy. -/
def truthyStr : Option String → Bool
  | none => false
  | some s => s != ""

/-- JS `a || b` on optional strings: a falsy left operand falls through to
the right operand, which is returned verbatim. -/
def jsOrStr (a b : Option String) : Option String :=
  if truthyStr a then a else b

/-- JS `Array.prototype.indexOf`, specialised to strings: the index of the
first occurrence, `-1` when absent. -/
def jsIndexOf : List String → String → Int
  | [], _ => -1
  | y :: ys, x =>
    if y = x then 0
    else
      let r := jsIndexOf ys x
      if r = -1 then -1 else r + 1

/-- The whitespace characters skipped by JS `parseInt`. -/
def jsWhitespace (c : Char) : Bool :=
  c = ' ' || c = '\t' || c = '\n' || c = '\r' || c = '\x0b' || c = '\x0c'

/-- Value of the longest leading run of decimal digits; `none` when there
is no leading digit (`parseInt` yields `NaN` there). -/
def digitsVal (cs : List Char) : Option Nat :=
  let ds := cs.takeWhile Char.isDigit
  if ds.isEmpty then none
  else some (ds.foldl (fun a c => a * 10 + (c.toNat - 48)) 0)

/-- Hexadecimal digit test, for `parseInt`'s automatic `0x` radix. -/
def isHexDigitChar (c : Char) : Bool :=
  c.isDigit || ('a' ≤ c && c ≤ 'f') || ('A' ≤ c && c ≤ 'F')

/-- Numeric value of a hexadecimal digit character. -/
def hexVal (c : Char) : Nat :=
  if c.isDigit then c.toNat - 48
  else if 'a' ≤ c && c ≤ 'f' then c.toNat - 87
  else c.toNat - 55

/-- Value of the longest leading run of hexadecimal digits. -/
def hexDigitsVal (cs : List Char) : Option Nat :=
  let ds := cs.takeWhile isHexDigitChar
  if ds.isEmpty then none
  else some (ds.foldl (fun a c => a * 16 + hexVal c) 0)

/-- JS `parseInt(s)` (radix unspecified): skip leading whitespace, read an
optional sign, auto-detect a `0x`/`0X` hexadecimal prefix, and take the
value of the longest digit prefix; `none` models `NaN`. -/
def parseIntJS (s : String) : Option Int :=
  let cs := s.data.dropWhile jsWhitespace
  let signed : Int × List Char :=
    match cs with
    | '-' :: rest => (-1, rest)
    | '+' :: rest => (1, rest)
    | rest => (1, rest)
  let sg := signed.1
  let body := signed.2
  match body with
  | '0' :: c :: rest =>
    if c = 'x' || c = 'X' then (hexDigitsVal rest).map (fun n => sg * n)
    else (digitsVal body).map (fun n => sg * n)
  | _ => (digitsVal body).map (fun n => sg * n)

/-- Modelled from the spec: `remove` from `shared/util` (not under `src/`)
deletes an item from the order sequence and is a no-op when the item is
absent; on the duplicate-free key order this is removal of the first
occurrence. -/
def removeFirst : List String → String → List String
  | [], _ => []
  | x :: xs, k => if x = k then xs else x :: removeFirst xs k

/-! ## Pattern matcher -/

/-- A value of the `include`/`exclude` props: a JS array of names, a comma
separated string, a RegExp (modelled by its `test` function), or any other
value (carrying only its truthiness). -/
inductive Pattern where
  | arr (names : List String)
  | str (s : String)
  | regexp (test : String → Bool)
  | other (truthy : Bool)

/-- The source's `matches(pattern, name)` (renamed, `matches` being
reserved in Lean): array membership, membership in the comma-split string,
RegExp test; anything else never matches anything. -/
def matchesPat (pattern : Pattern) (name : String) : Bool :=
  match pattern with
  | .arr l => jsIndexOf l name > -1
  | .str s => jsIndexOf (s.splitOn ",") name > -1
  | .regexp test => test name
  | .other _ => false

/-- Truthiness of an optional pattern value (`""` is the only falsy string;
arrays and RegExps are truthy objects). -/
def truthyPat : Option Pattern → Bool
  | none => false
  | some (.str s) => s != ""
  | some (.other b) => b
  | some _ => true

/-- The matcher applied to optional operands, as at the call sites, where the
pattern and the name have already been checked truthy. -/
def matchesO (p : Option Pattern) (name : Option String) : Bool :=
  match p, name with
  | some p, some n => matchesPat p n
  | _, _ => false

/-! ## The `max` prop -/

/-- The `max` prop: absent, a number, or a string. -/
inductive MaxVal where
  | absent
  | num (n : Int)
  | str (s : String)
  deriving DecidableEq

/-- JS truthiness of the `max` prop value. -/
def MaxVal.truthy : MaxVal → Bool
  | .absent => false
  | .num n => n != 0
  | .str s => s != ""

/-- JS `parseInt(this.max)`: integral numbers round-trip, strings go through
`parseIntJS`, `parseInt(undefined)` is `NaN`. -/
def MaxVal.parseInt : MaxVal → Option Int
  | .absent => none
  | .num n => some n
  | .str s => parseIntJS s

/-- The capacity test `this.max && keys.length > parseInt(this.max)`; a
comparison against `NaN` is false. -/
def maxExceeded (max : MaxVal) (len : Nat) : Bool :=
  max.truthy &&
    (match max.parseInt with
     | some m => decide ((len : Int) > m)
     | none => false)

/-! ## VNodes and component options -/

/-- The component constructor, as far as this core reads it: its `cid` and
the component name its options yield.  `ctorName` stands for the result of
`getComponentName(Ctor.options)` (`core/vdom/create-component`, not under
`src/`), the registered logical name. -/
structure Ctor where
  cid : Nat
  ctorName : Option String
  deriving DecidableEq

/-- The source's `VNodeComponentOptions`, restricted to the fields this core reads. -/
structure ComponentOptions where
  Ctor : Ctor
  tag : Option String
  deriving DecidableEq

/-- The source's `_getComponentName(opts)`:
`opts && (getComponentName(opts.Ctor.options) || opts.tag)`. -/
def _getComponentName (opts : Option ComponentOptions) : Option String :=
  opts.bind fun o => jsOrStr o.Ctor.ctorName o.tag

/-- The node data `vnode.data`, restricted to the `keepAlive` marker this core writes. -/
structure VNodeData where
  keepAlive : Bool
  deriving DecidableEq

/-- A virtual node, restricted to the fields this core reads or writes.
Instances are opaque `Nat` handles. -/
structure VNode where
  key : Option String
  tag : Option String
  componentInstance : Option Nat
  componentOptions : Option ComponentOptions
  data : Option VNodeData
  deriving DecidableEq

/-! ## The cache store -/

/-- The source's `CacheEntry`. -/
structure CacheEntry where
  name : Option String
  tag : Option String
  componentInstance : Option Nat
  deriving DecidableEq

/-- The source's `CacheEntryMap`: a JS record, modelled as an insertion-ordered
association list; a `none` value is the `null` tombstone. -/
abbrev RecordC := List (String × Option CacheEntry)

/-- Record read `cache[key]` distinguishing an absent key (`none`) from a
present key (`some value`). -/
def recGet : RecordC → String → Option (Option CacheEntry)
  | [], _ => none
  | (k, v) :: rest, key => if k = key then some v else recGet rest key

/-- Record read `cache[key]` as the call sites use it: both an absent key and a `null`
tombstone read as no entry. -/
def cacheGet (c : RecordC) (key : String) : Option CacheEntry :=
  match recGet c key with
  | some (some e) => some e
  | _ => none

/-- Record write `cache[key] = v`: updates the binding in place when the
key is present, appends it otherwise. -/
def recSet : RecordC → String → Option CacheEntry → RecordC
  | [], key, v => [(key, v)]
  | (k, w) :: rest, key, v =>
    if k = key then (k, v) :: rest else (k, w) :: recSet rest key v

/-- The mutable cache state of one keep-alive instance, together with the
log of instance handles on which `$destroy` has been invoked (the
externally observable teardown effect, in call order). -/
structure Store where
  cache : RecordC
  keys : List String
  destroyLog : List Nat
  deriving DecidableEq

/-- The destroy guard of `pruneCacheEntry`:
`!current || entry.tag !== current.tag`. -/
def destroyGuard (current : Option VNode) (e : CacheEntry) : Bool :=
  match current with
  | none => true
  | some c => decide (e.tag ≠ c.tag)

/-- The source's `pruneCacheEntry(cache, key, keys, current)`.  When the guard fires the
held instance is destroyed; `entry.componentInstance.$destroy()` throws
(`none`) when the handle is absent.  On success the entry is nulled and the
key removed from the order. -/
def pruneCacheEntry (s : Store) (key : String) (current : Option VNode) :
    Option Store :=
  let removed (log : List Nat) : Store :=
    { cache := recSet s.cache key none
      keys := removeFirst s.keys key
      destroyLog := log }
  match cacheGet s.cache key with
  | none => some (removed s.destroyLog)
  | some e =>
    if destroyGuard current e then
      match e.componentInstance with
      | none => none
      | some i => some (removed (s.destroyLog ++ [i]))
    else some (removed s.destroyLog)

/-! ## The keep-alive component -/

/-- The keep-alive component state: its store, the three props, the staged
pending insertion, the currently displayed node `_vnode`, and a flag
recording that a sweep reset the parent placeholder's children. -/
structure KeepAlive where
  store : Store
  incl : Option Pattern
  exclude : Option Pattern
  max : MaxVal
  vnodeToCache : Option VNode
  keyToCache : String
  _vnode : Option VNode
  slotChildrenReset : Bool

/-- The `created()` hook: an empty cache and an empty key order. -/
def createdState (incl exclude : Option Pattern) (max : MaxVal) : KeepAlive :=
  { store := { cache := [], keys := [], destroyLog := [] }
    incl := incl
    exclude := exclude
    max := max
    vnodeToCache := none
    keyToCache := ""
    _vnode := none
    slotChildrenReset := false }

/-- The commit hook `cacheVNode()`: commit the staged vnode under the staged key, push the
key, and on a capacity breach prune the oldest key `keys[0]` with the
currently displayed node as the destroy guard. -/
def cacheVNode (st : KeepAlive) : Option KeepAlive :=
  match st.vnodeToCache with
  | none => some st
  | some v =>
    let entry : CacheEntry :=
      { name := _getComponentName v.componentOptions
        tag := v.tag
        componentInstance := v.componentInstance }
    let cache1 := recSet st.store.cache st.keyToCache (some entry)
    let keys1 := st.store.keys ++ [st.keyToCache]
    let s1 : Store :=
      { cache := cache1, keys := keys1, destroyLog := st.store.destroyLog }
    if maxExceeded st.max keys1.length then
      match keys1 with
      | [] => some { st with store := s1, vnodeToCache := none }
      | k0 :: _ =>
        (pruneCacheEntry s1 k0 st._vnode).map fun s2 =>
          { st with store := s2, vnodeToCache := none }
    else some { st with store := s1, vnodeToCache := none }

/-- One iteration of the `pruneCache` loop body at a given key: a live
entry with a truthy name failing the filter is pruned. -/
def pruneStep (cur : Option VNode) (filter : String → Bool) (s : Store)
    (key : String) : Option Store :=
  match cacheGet s.cache key with
  | none => some s
  | some entry =>
    match entry.name with
    | none => some s
    | some n =>
      if n != "" && !filter n then pruneCacheEntry s key cur else some s

/-- The sweep `pruneCache(keepAliveInstance, filter)`: iterate the record's keys,
prune non-matching named live entries with `_vnode` as the destroy guard,
then reset the parent placeholder's children. -/
def pruneCache (st : KeepAlive) (filter : String → Bool) : Option KeepAlive :=
  ((st.store.cache.map Prod.fst).foldlM (pruneStep st._vnode filter)
      st.store).map
    fun s => { st with store := s, slotChildrenReset := true }

/-- The `destroyed()` hook: prune every key of the record, with no destroy
guard. -/
def destroyed (s : Store) : Option Store :=
  (s.cache.map Prod.fst).foldlM (fun acc k => pruneCacheEntry acc k none) s

/-- The `include` watcher: sweep with `name => matchesPat(val, name)`. -/
def includeWatcher (st : KeepAlive) (val : Pattern) : Option KeepAlive :=
  pruneCache st fun name => matchesPat val name

/-- The `exclude` watcher: sweep with `name => !matchesPat(val, name)`. -/
def excludeWatcher (st : KeepAlive) (val : Pattern) : Option KeepAlive :=
  pruneCache st fun name => !matchesPat val name

/-- Modelled from the spec: the single eligible child extraction from the
default slot (the source's `getFirstComponentChild` from
`core/vdom/helpers`, not under `src/`): one child only; with zero or
multiple children no child is extracted. -/
def getFirstComponentChild : List VNode → Option VNode
  | [c] => some c
  | _ => none

/-- Key resolution from `render()`:
`vnode.key == null ? Ctor.cid + (tag ? "::" + tag : "") : vnode.key`. -/
def resolveKey (v : VNode) (co : ComponentOptions) : String :=
  match v.key with
  | some k => k
  | none =>
    toString co.Ctor.cid ++
      (match co.tag with
       | some t => if t = "" then "" else "::" ++ t
       | none => "")

/-- The source's `render()`.  The result is the returned vnode (with its mutations
applied) paired with the updated state; `none` models a thrown
`TypeError` (`vnode.data.keepAlive = true` with absent `data`), in which
case the model abandons the pass's partial mutations. -/
def render (st : KeepAlive) (slot : List VNode) :
    Option (Option VNode × KeepAlive) :=
  match getFirstComponentChild slot with
  | none => some (slot.head?, st)
  | some v =>
    match v.componentOptions with
    | none => some (some v, st)
    | some co =>
      let name := _getComponentName (some co)
      if (truthyPat st.incl && (!truthyStr name || !matchesO st.incl name))
          ||
          (truthyPat st.exclude && truthyStr name &&
            matchesO st.exclude name) then
        some (some v, st)
      else
        let key := resolveKey v co
        match cacheGet st.store.cache key with
        | some entry =>
          match v.data with
          | none => none
          | some d =>
            let v2 :=
              { v with
                componentInstance := entry.componentInstance
                data := some { d with keepAlive := true } }
            some (some v2,
              { st with
                store :=
                  { st.store with
                    keys := removeFirst st.store.keys key ++ [key] } })
        | none =>
          match v.data with
          | none => none
          | some d =>
            let v2 := { v with data := some { d with keepAlive := true } }
            some (some v2,
              { st with vnodeToCache := some v2, keyToCache := key })

/-- Stage a key/vnode pair and run one commit, as one render-miss/update
cycle does. -/
def stageAndCommit (st : KeepAlive) (kv : String × VNode) : Option KeepAlive :=
  cacheVNode { st with vnodeToCache := some kv.2, keyToCache := kv.1 }

/-- A sequence of staged commits. -/
def commitSeq (st : KeepAlive) (l : List (String × VNode)) :
    Option KeepAlive :=
  l.foldlM stageAndCommit st

/-- A live entry that a sweep with `filter` targets: a truthy name failing
the filter. -/
def sweepTargetB (filter : String → Bool) (e : CacheEntry) : Bool :=
  match e.name with
  | some n => n != "" && !filter n
  | none => false

/-- Every live entry a sweep with `filter` targets holds a present
instance handle (so its teardown cannot throw). -/
def entriesOkB (filter : String → Bool) (c : RecordC) : Bool :=
  c.all fun p =>
    match p.2 with
    | some e => !sweepTargetB filter e || e.componentInstance.isSome
    | none => true

/-- A concrete two-entry store for exercising a sweep: `"a"` holds an
entry named `"Foo"`, `"b"` a nameless entry. -/
def sweepDemoState : KeepAlive :=
  { store :=
      { cache :=
          [("a", some { name := some "Foo", tag := some "div",
                        componentInstance := some 1 }),
           ("b", some { name := none, tag := none,
                        componentInstance := some 2 })]
        keys := ["a", "b"], destroyLog := [] }
    incl := none, exclude := none, max := .absent
    vnodeToCache := none, keyToCache := "", _vnode := none
    slotChildrenReset := false }

/-- A concrete predicate admitting only the name `"Bar"`. -/
def sweepDemoFilter : String → Bool := fun n => n == "Bar"

/-- The number of live (non-tombstoned) entries of the record. -/
def liveCount (c : RecordC) : Nat :=
  (c.filter (fun p => p.2.isSome)).length

/-- A concrete full one-key store with a staged commit, for the breach
part of the capacity theorem. -/
def fullState : KeepAlive :=
  { store :=
      { cache := [("x", some { name := none, tag := none,
                               componentInstance := some 5 })]
        keys := ["x"], destroyLog := [] }
    incl := none, exclude := none, max := .num (1 : Int)
    vnodeToCache := some { key := none, tag := none,
                           componentInstance := some 7,
                           componentOptions := none, data := none }
    keyToCache := "y", _vnode := none
    slotChildrenReset := false }

/-! ## Basic lemmas about the record and order operations -/

theorem recGet_recSet_self (c : RecordC) (k : String) (v : Option CacheEntry) :
    recGet (recSet c k v) k = some v := by
  induction c with
  | nil => simp [recSet, recGet]
  | cons p rest ih =>
    obtain ⟨pk, pv⟩ := p
    by_cases h : pk = k
    · rw [recSet, if_pos h]
      simp only [recGet]
      rw [if_pos h]
    · rw [recSet, if_neg h]
      simp only [recGet]
      rw [if_neg h, ih]

theorem recGet_recSet_ne (c : RecordC) (k k' : String) (v : Option CacheEntry)
    (h : k' ≠ k) : recGet (recSet c k v) k' = recGet c k' := by
  induction c with
  | nil =>
    simp only [recSet, recGet]
    rw [if_neg (fun e => h e.symm)]
  | cons p rest ih =>
    obtain ⟨pk, pv⟩ := p
    by_cases hp : pk = k
    · rw [recSet, if_pos hp]
      simp only [recGet]
      have hne : ¬ pk = k' := fun e => h (e.symm.trans hp)
      rw [if_neg hne, if_neg hne]
    · rw [recSet, if_neg hp]
      simp only [recGet]
      by_cases hp' : pk = k'
      · rw [if_pos hp', if_pos hp']
      · rw [if_neg hp', if_neg hp', ih]

theorem cacheGet_recSet_self (c : RecordC) (k : String) (v : Option CacheEntry) :
    cacheGet (recSet c k v) k = v := by
  cases v <;> simp [cacheGet, recGet_recSet_self]

theorem cacheGet_recSet_ne (c : RecordC) (k k' : String) (v : Option CacheEntry)
    (h : k' ≠ k) : cacheGet (recSet c k v) k' = cacheGet c k' := by
  simp [cacheGet, recGet_recSet_ne c k k' v h]

theorem recGet_eq_none_of_not_mem (c : RecordC) (k : String)
    (h : k ∉ c.map Prod.fst) : recGet c k = none := by
  induction c with
  | nil => rfl
  | cons p rest ih =>
    obtain ⟨pk, pv⟩ := p
    simp only [List.map_cons, List.mem_cons] at h
    push_neg at h
    simp only [recGet]
    rw [if_neg (fun e => h.1 e.symm), ih h.2]

theorem mem_of_cacheGet_some (c : RecordC) (k : String) (e : CacheEntry)
    (h : cacheGet c k = some e) : k ∈ c.map Prod.fst := by
  by_contra hmem
  rw [cacheGet, recGet_eq_none_of_not_mem c k hmem] at h
  exact Option.noConfusion h

theorem recSet_map_fst_of_mem (c : RecordC) (k : String) (v : Option CacheEntry)
    (h : k ∈ c.map Prod.fst) :
    (recSet c k v).map Prod.fst = c.map Prod.fst := by
  induction c with
  | nil => cases h
  | cons p rest ih =>
    obtain ⟨pk, pv⟩ := p
    by_cases hp : pk = k
    · rw [recSet, if_pos hp]
      simp only [List.map_cons]
    · rw [recSet, if_neg hp]
      simp only [List.map_cons, List.mem_cons] at h ⊢
      rcases h with h | h
      · exact absurd h.symm hp
      · rw [ih h]

theorem recSet_map_fst_of_not_mem (c : RecordC) (k : String)
    (v : Option CacheEntry) (h : k ∉ c.map Prod.fst) :
    (recSet c k v).map Prod.fst = c.map Prod.fst ++ [k] := by
  induction c with
  | nil => rfl
  | cons p rest ih =>
    obtain ⟨pk, pv⟩ := p
    simp only [List.map_cons, List.mem_cons] at h
    push_neg at h
    rw [recSet, if_neg (fun e => h.1 e.symm)]
    simp only [List.map_cons, List.cons_append]
    rw [ih h.2]

theorem removeFirst_of_not_mem (l : List String) (k : String) (h : k ∉ l) :
    removeFirst l k = l := by
  induction l with
  | nil => rfl
  | cons x xs ih =>
    simp only [List.mem_cons] at h
    push_neg at h
    rw [removeFirst, if_neg (fun e => h.1 e.symm), ih h.2]

theorem removeFirst_cons_self (l : List String) (k : String) :
    removeFirst (k :: l) k = l := by
  simp [removeFirst]

theorem mem_of_mem_removeFirst (l : List String) (k x : String)
    (h : x ∈ removeFirst l k) : x ∈ l := by
  induction l with
  | nil => cases h
  | cons y ys ih =>
    by_cases hy : y = k
    · rw [removeFirst, if_pos hy] at h
      exact List.mem_cons_of_mem y h
    · rw [removeFirst, if_neg hy] at h
      rcases List.mem_cons.mp h with h | h
      · exact h ▸ List.mem_cons_self x ys
      · exact List.mem_cons_of_mem y (ih h)

theorem mem_removeFirst_of_ne (l : List String) (k x : String)
    (hx : x ∈ l) (hne : x ≠ k) : x ∈ removeFirst l k := by
  induction l with
  | nil => cases hx
  | cons y ys ih =>
    by_cases hy : y = k
    · rw [removeFirst, if_pos hy]
      rcases List.mem_cons.mp hx with h | h
      · exact absurd (h.trans hy) hne
      · exact h
    · rw [removeFirst, if_neg hy]
      rcases List.mem_cons.mp hx with h | h
      · exact h ▸ List.mem_cons_self x _
      · exact List.mem_cons_of_mem y (ih h)

theorem nodup_removeFirst (l : List String) (k : String) (h : l.Nodup) :
    (removeFirst l k).Nodup := by
  induction l with
  | nil => exact h
  | cons y ys ih =>
    rcases List.nodup_cons.mp h with ⟨hy, hys⟩
    by_cases hk : y = k
    · rw [removeFirst, if_pos hk]; exact hys
    · rw [removeFirst, if_neg hk]
      exact List.nodup_cons.mpr
        ⟨fun hmem => hy (mem_of_mem_removeFirst ys k y hmem), ih hys⟩

theorem not_mem_removeFirst_self (l : List String) (k : String)
    (h : l.Nodup) : k ∉ removeFirst l k := by
  induction l with
  | nil => simp [removeFirst]
  | cons y ys ih =>
    rcases List.nodup_cons.mp h with ⟨hy, hys⟩
    by_cases hk : y = k
    · rw [removeFirst, if_pos hk]
      exact hk ▸ hy
    · rw [removeFirst, if_neg hk]
      intro hmem
      rcases List.mem_cons.mp hmem with h | h
      · exact hk h.symm
      · exact ih hys h

/-! ## Lemmas about `jsIndexOf` -/

theorem jsIndexOf_neg_one_or_nonneg (l : List String) (x : String) :
    jsIndexOf l x = -1 ∨ 0 ≤ jsIndexOf l x := by
  induction l with
  | nil => left; rfl
  | cons y ys ih =>
    by_cases h : y = x
    · right; simp [jsIndexOf, h]
    · rcases ih with h1 | h1
      · left; simp [jsIndexOf, h, h1]
      · right
        have h2 : jsIndexOf ys x ≠ -1 := by omega
        simp only [jsIndexOf, if_neg h, if_neg h2]
        omega

theorem jsIndexOf_pos_iff_mem (l : List String) (x : String) :
    jsIndexOf l x > -1 ↔ x ∈ l := by
  induction l with
  | nil => simp [jsIndexOf]
  | cons y ys ih =>
    by_cases h : y = x
    · subst h
      simp only [jsIndexOf, if_pos rfl]
      simp
    · rcases jsIndexOf_neg_one_or_nonneg ys x with h1 | h1
      · have hmem : x ∉ ys := fun hm => by
          have := ih.mpr hm; omega
        simp only [jsIndexOf, if_neg h, if_pos h1]
        simp only [List.mem_cons]
        constructor
        · omega
        · rintro (rfl | hm)
          · exact absurd rfl h
          · exact absurd hm hmem
      · have h2 : jsIndexOf ys x ≠ -1 := by omega
        have hmem : x ∈ ys := ih.mp (by omega)
        simp only [jsIndexOf, if_neg h, if_neg h2]
        simp only [List.mem_cons]
        constructor
        · intro _; right; exact hmem
        · intro _; omega

/-! ## C9: the pattern matcher -/

/-- C9: `matches(pattern, name)` is true exactly when the pattern is an
array containing `name`, a string among whose comma separated segments
`name` appears, or a RegExp that `name` satisfies; every other pattern
form never matches. -/
theorem matchesPat_characterisation :
    (∀ (l : List String) (name : String),
        matchesPat (.arr l) name = true ↔ name ∈ l) ∧
    (∀ (s name : String),
        matchesPat (.str s) name = true ↔ name ∈ s.splitOn ",") ∧
    (∀ (test : String → Bool) (name : String),
        matchesPat (.regexp test) name = test name) ∧
    (∀ (b : Bool) (name : String), matchesPat (.other b) name = false) := by
  refine ⟨fun l name => ?_, fun s name => ?_, fun test name => rfl,
    fun b name => rfl⟩
  · simpa [matchesPat] using jsIndexOf_pos_iff_mem l name
  · simpa [matchesPat] using jsIndexOf_pos_iff_mem (s.splitOn ",") name

/-! ## C8: key resolution -/

/-- C8: key resolution is deterministic: an explicit key is used verbatim;
with no explicit key the synthetic key is the constructor identity alone
when no truthy structural tag is present, or the identity joined with `::`
and the tag, so two different truthy tags under the same constructor
identity never resolve to the same synthetic key. -/
theorem resolveKey_spec :
    (∀ (v : VNode) (co : ComponentOptions) (k : String),
        v.key = some k → resolveKey v co = k) ∧
    (∀ (v : VNode) (co : ComponentOptions),
        v.key = none → (co.tag = none ∨ co.tag = some "") →
        resolveKey v co = toString co.Ctor.cid) ∧
    (∀ (v : VNode) (co : ComponentOptions) (t : String),
        v.key = none → co.tag = some t → t ≠ "" →
        resolveKey v co = toString co.Ctor.cid ++ ("::" ++ t)) ∧
    (∀ (v₁ v₂ : VNode) (co₁ co₂ : ComponentOptions) (t₁ t₂ : String),
        v₁.key = none → v₂.key = none →
        co₁.Ctor.cid = co₂.Ctor.cid →
        co₁.tag = some t₁ → co₂.tag = some t₂ →
        t₁ ≠ "" → t₂ ≠ "" → t₁ ≠ t₂ →
        resolveKey v₁ co₁ ≠ resolveKey v₂ co₂) := by
  have hsome : ∀ (v : VNode) (co : ComponentOptions) (k : String),
      v.key = some k → resolveKey v co = k := by
    intro v co k hk
    simp [resolveKey, hk]
  have hnone : ∀ (v : VNode) (co : ComponentOptions),
      v.key = none → (co.tag = none ∨ co.tag = some "") →
      resolveKey v co = toString co.Ctor.cid := by
    intro v co hk htag
    rcases htag with h | h <;> simp [resolveKey, hk, h]
  have htag : ∀ (v : VNode) (co : ComponentOptions) (t : String),
      v.key = none → co.tag = some t → t ≠ "" →
      resolveKey v co = toString co.Ctor.cid ++ ("::" ++ t) := by
    intro v co t hk ht hne
    simp [resolveKey, hk, ht, hne]
  refine ⟨hsome, hnone, htag, ?_⟩
  intro v₁ v₂ co₁ co₂ t₁ t₂ hk₁ hk₂ hcid ht₁ ht₂ hne₁ hne₂ hne heq
  rw [htag v₁ co₁ t₁ hk₁ ht₁ hne₁, htag v₂ co₂ t₂ hk₂ ht₂ hne₂, hcid] at heq
  apply hne
  have hdata := congrArg String.data heq
  simp only [String.data_append] at hdata
  have := List.append_cancel_left (List.append_cancel_left hdata)
  exact String.ext this

/-- Witness for C8 at concrete inputs. -/
theorem resolveKey_spec_witness :
    resolveKey
        { key := none, tag := none, componentInstance := none,
          componentOptions := none, data := none }
        { Ctor := { cid := 3, ctorName := none }, tag := some "foo" } ≠
      resolveKey
        { key := none, tag := none, componentInstance := none,
          componentOptions := none, data := none }
        { Ctor := { cid := 3, ctorName := none }, tag := some "bar" } :=
  resolveKey_spec.2.2.2
    { key := none, tag := none, componentInstance := none,
      componentOptions := none, data := none }
    { key := none, tag := none, componentInstance := none,
      componentOptions := none, data := none }
    { Ctor := { cid := 3, ctorName := none }, tag := some "foo" }
    { Ctor := { cid := 3, ctorName := none }, tag := some "bar" }
    "foo" "bar" rfl rfl rfl rfl rfl (by decide) (by decide) (by decide)

/-! ## Shape of successful evictions -/

theorem pruneCacheEntry_shape (s : Store) (key : String) (cur : Option VNode)
    (s' : Store) (h : pruneCacheEntry s key cur = some s') :
    s'.cache = recSet s.cache key none ∧ s'.keys = removeFirst s.keys key := by
  cases hget : cacheGet s.cache key with
  | none =>
    simp only [pruneCacheEntry, hget, Option.some.injEq] at h
    subst h
    exact ⟨rfl, rfl⟩
  | some e =>
    simp only [pruneCacheEntry, hget] at h
    by_cases hg : destroyGuard cur e = true
    · rw [if_pos hg] at h
      cases hi : e.componentInstance with
      | none => rw [hi] at h; exact Option.noConfusion h
      | some i =>
        rw [hi] at h
        injection h with h
        subst h
        exact ⟨rfl, rfl⟩
    · rw [if_neg hg] at h
      injection h with h
      subst h
      exact ⟨rfl, rfl⟩

/-! ## C2: eviction of an entry -/

/-- C2: `pruneCacheEntry` on an existing entry invokes the held instance's
teardown exactly when no comparison node is supplied or the entry's tag
differs from the comparison node's tag; with equal tags the instance is
not destroyed; and every successful eviction nulls the entry in the map
and removes the key from the recency order. -/
theorem pruneCacheEntry_spec (s : Store) (key : String) (cur : Option VNode)
    (e : CacheEntry) (he : cacheGet s.cache key = some e) :
    (∀ i, e.componentInstance = some i →
      (cur = none ∨ ∃ c, cur = some c ∧ e.tag ≠ c.tag) →
      pruneCacheEntry s key cur =
        some { cache := recSet s.cache key none
               keys := removeFirst s.keys key
               destroyLog := s.destroyLog ++ [i] }) ∧
    (∀ c, cur = some c → e.tag = c.tag →
      pruneCacheEntry s key cur =
        some { cache := recSet s.cache key none
               keys := removeFirst s.keys key
               destroyLog := s.destroyLog }) ∧
    (∀ s', pruneCacheEntry s key cur = some s' →
      cacheGet s'.cache key = none ∧ (s.keys.Nodup → key ∉ s'.keys)) := by
  refine ⟨?_, ?_, ?_⟩
  · intro i hi hguard
    have hg : destroyGuard cur e = true := by
      rcases hguard with rfl | ⟨c, rfl, hne⟩
      · rfl
      · simp [destroyGuard, hne]
    simp only [pruneCacheEntry, he, hg, hi, if_true]
  · intro c hc htag
    have hg : destroyGuard cur e = false := by
      subst hc
      simp [destroyGuard, htag]
    simp only [pruneCacheEntry, he, hg, Bool.false_eq_true, if_false]
  · intro s' hs
    obtain ⟨hc, hk⟩ := pruneCacheEntry_shape s key cur s' hs
    refine ⟨?_, fun hnd => ?_⟩
    · rw [hc, cacheGet_recSet_self]
    · rw [hk]
      exact not_mem_removeFirst_self _ _ hnd

/-- Witness for C2 at a concrete store: a one-entry store, no comparison
node, so the instance handle `5` is destroyed and the entry removed. -/
theorem pruneCacheEntry_spec_witness :
    pruneCacheEntry
        { cache :=
            [("k", some { name := none, tag := some "div",
                          componentInstance := some 5 })]
          keys := ["k"], destroyLog := [] } "k" none =
      some
        { cache :=
            recSet
              [("k", some { name := none, tag := some "div",
                            componentInstance := some 5 })] "k" none
          keys := removeFirst ["k"] "k"
          destroyLog := [] ++ [5] } :=
  (pruneCacheEntry_spec
      { cache :=
          [("k", some { name := none, tag := some "div",
                        componentInstance := some 5 })]
        keys := ["k"], destroyLog := [] } "k" none
      { name := none, tag := some "div", componentInstance := some 5 }
      (by decide)).1 5 rfl (Or.inl rfl)

/-! ## C7: no double destruction -/

/-- C7: after a successful eviction the store holds no entry under the
key, so a repeated `pruneCacheEntry` on the same key finds no entry,
destroys nothing and cannot throw. -/
theorem pruneCacheEntry_no_double_destroy (s s' : Store) (key : String)
    (cur cur' : Option VNode) (h : pruneCacheEntry s key cur = some s') :
    cacheGet s'.cache key = none ∧
    pruneCacheEntry s' key cur' =
      some { cache := recSet s'.cache key none
             keys := removeFirst s'.keys key
             destroyLog := s'.destroyLog } := by
  obtain ⟨hc, _⟩ := pruneCacheEntry_shape s key cur s' h
  have hnone : cacheGet s'.cache key = none := by
    rw [hc]
    exact cacheGet_recSet_self _ _ _
  exact ⟨hnone, by simp only [pruneCacheEntry, hnone]⟩

/-- Witness for C7: evicting the key `k` twice in a row from a concrete
one-entry store leaves the destroy log with the single handle `5`. -/
theorem pruneCacheEntry_no_double_destroy_witness :
    cacheGet
        (recSet
          [("k", some { name := none, tag := some "div",
                        componentInstance := some 5 })] "k" none) "k" =
      none ∧
    pruneCacheEntry
        { cache :=
            recSet
              [("k", some { name := none, tag := some "div",
                            componentInstance := some 5 })] "k" none
          keys := removeFirst ["k"] "k"
          destroyLog := [] ++ [5] } "k" none =
      some
        { cache :=
            recSet
              (recSet
                [("k", some { name := none, tag := some "div",
                              componentInstance := some 5 })] "k" none)
              "k" none
          keys := removeFirst (removeFirst ["k"] "k") "k"
          destroyLog := [] ++ [5] } :=
  pruneCacheEntry_no_double_destroy
    { cache :=
        [("k", some { name := none, tag := some "div",
                      componentInstance := some 5 })]
      keys := ["k"], destroyLog := [] }
    { cache :=
        recSet
          [("k", some { name := none, tag := some "div",
                        componentInstance := some 5 })] "k" none
      keys := removeFirst ["k"] "k"
      destroyLog := [] ++ [5] } "k" none none (by decide)

/-! ## C5: malformed `max` values -/

/-- C5 counterexample: with `max` being the non-positive numeric string
`"0"` (truthy, and parsing to `0`), a commit does trigger a capacity
eviction: committing key `"b"` into a store holding only key `"a"`
destroys the held instance `7` and evicts `"a"`, contradicting the claim
that non-positive `max` strings behave as "no limit". -/
theorem cacheVNode_max_zero_string_evicts :
    (cacheVNode
        { store :=
            { cache :=
                [("a", some { name := some "Foo", tag := some "div",
                              componentInstance := some 7 })]
              keys := ["a"], destroyLog := [] }
          incl := none, exclude := none, max := .str "0"
          vnodeToCache :=
            some { key := none, tag := some "p", componentInstance := some 9,
                   componentOptions := none, data := none }
          keyToCache := "b", _vnode := none
          slotChildrenReset := false }).map
        (fun s =>
          (s.store.destroyLog, s.store.keys, cacheGet s.store.cache "a")) =
      some ([7], ["b"], none) := by
  rfl

/-- C5 (amended): when `max` is falsy (absent, the number `0`, the empty
string) or does not parse to an integer (`parseInt` gives `NaN`), no
commit triggers a capacity eviction: the staged entry is inserted and its
key appended, with nothing destroyed and no key removed.  Truthy numeric
strings parsing to a non-positive integer (such as `"0"` or `"-2"`) are
not covered: they do trigger an eviction on every commit, as the
counterexample shows. -/
theorem cacheVNode_no_limit (st : KeepAlive) (v : VNode)
    (hst : st.vnodeToCache = some v)
    (hmax : st.max.truthy = false ∨ st.max.parseInt = none) :
    cacheVNode st =
      some
        { st with
          store :=
            { cache :=
                recSet st.store.cache st.keyToCache
                  (some { name := _getComponentName v.componentOptions
                          tag := v.tag
                          componentInstance := v.componentInstance })
              keys := st.store.keys ++ [st.keyToCache]
              destroyLog := st.store.destroyLog }
          vnodeToCache := none } := by
  have hbr :
      maxExceeded st.max (st.store.keys ++ [st.keyToCache]).length = false := by
    rcases hmax with h | h
    · simp [maxExceeded, h]
    · simp [maxExceeded, h]
  simp only [cacheVNode, hst, hbr, Bool.false_eq_true, if_false]

/-- Witness for C5's amended theorem: an unparsable `max` string commits
without evicting. -/
theorem cacheVNode_no_limit_witness :
    cacheVNode
        { store :=
            { cache :=
                [("a", some { name := some "Foo", tag := some "div",
                              componentInstance := some 7 })]
              keys := ["a"], destroyLog := [] }
          incl := none, exclude := none, max := .str "abc"
          vnodeToCache :=
            some { key := none, tag := some "p", componentInstance := some 9,
                   componentOptions := none, data := none }
          keyToCache := "b", _vnode := none
          slotChildrenReset := false } =
      some
        { store :=
            { cache :=
                recSet
                  [("a", some { name := some "Foo", tag := some "div",
                                componentInstance := some 7 })] "b"
                  (some { name :=
                            _getComponentName
                              (none : Option ComponentOptions)
                          tag := some "p"
                          componentInstance := some 9 })
              keys := ["a"] ++ ["b"]
              destroyLog := [] }
          incl := none, exclude := none, max := .str "abc"
          vnodeToCache := none
          keyToCache := "b", _vnode := none
          slotChildrenReset := false } :=
  cacheVNode_no_limit
    { store :=
        { cache :=
            [("a", some { name := some "Foo", tag := some "div",
                          componentInstance := some 7 })]
          keys := ["a"], destroyLog := [] }
      incl := none, exclude := none, max := .str "abc"
      vnodeToCache :=
        some { key := none, tag := some "p", componentInstance := some 9,
               componentOptions := none, data := none }
      keyToCache := "b", _vnode := none
      slotChildrenReset := false }
    { key := none, tag := some "p", componentInstance := some 9,
      componentOptions := none, data := none }
    rfl (Or.inr (by decide))

/-! ## C10: totality of teardown -/

/-- C10 counterexample: teardown is not total for every combination of
present-or-absent instance handles: at container teardown an entry whose
instance handle is absent makes `entry.componentInstance.$destroy()`
throw, modelled by `destroyed` returning `none`. -/
theorem destroyed_throws_on_absent_instance :
    destroyed
        { cache := [("a", some { name := none, tag := none,
                                 componentInstance := none })]
          keys := ["a"], destroyLog := [] } = none := by
  rfl

/-- C10 (amended): container teardown with three live entries whose
instance handles are present completes without throwing, for every
combination of entry tags and names: all three instances are destroyed,
every entry is nulled and the key order is emptied. -/
theorem destroyed_three_entries (k1 k2 k3 : String)
    (e1 e2 e3 : CacheEntry) (i1 i2 i3 : Nat) (log : List Nat)
    (h12 : k1 ≠ k2) (h13 : k1 ≠ k3) (h23 : k2 ≠ k3)
    (hi1 : e1.componentInstance = some i1)
    (hi2 : e2.componentInstance = some i2)
    (hi3 : e3.componentInstance = some i3) :
    destroyed
        { cache := [(k1, some e1), (k2, some e2), (k3, some e3)]
          keys := [k1, k2, k3], destroyLog := log } =
      some
        { cache := [(k1, none), (k2, none), (k3, none)]
          keys := [], destroyLog := log ++ [i1, i2, i3] } := by
  simp [destroyed, pruneCacheEntry, cacheGet, recGet, recSet, removeFirst,
    destroyGuard, hi1, hi2, hi3, h12, h13, h23, Ne.symm h12, Ne.symm h13,
    Ne.symm h23, List.foldlM_cons, List.foldlM_nil, Option.bind]

/-- Witness for C10's amended theorem at a concrete three-entry store. -/
theorem destroyed_three_entries_witness :
    destroyed
        { cache :=
            [("a", some { name := some "A", tag := some "div",
                          componentInstance := some 1 }),
             ("b", some { name := none, tag := none,
                          componentInstance := some 2 }),
             ("c", some { name := some "C", tag := some "span",
                          componentInstance := some 3 })]
          keys := ["a", "b", "c"], destroyLog := [] } =
      some
        { cache := [("a", none), ("b", none), ("c", none)]
          keys := [], destroyLog := [] ++ [1, 2, 3] } :=
  destroyed_three_entries "a" "b" "c"
    { name := some "A", tag := some "div", componentInstance := some 1 }
    { name := none, tag := none, componentInstance := some 2 }
    { name := some "C", tag := some "span", componentInstance := some 3 }
    1 2 3 [] (by decide) (by decide) (by decide) rfl rfl rfl

/-! ## C4: eligibility and bypass -/

/-- C4: a render pass is ineligible exactly when (`include` is truthy and
the derived name is falsy or fails to match it) or (`exclude` is truthy
and the name is truthy and matches it).  An ineligible pass returns the
child node untouched with the component state unchanged — no lookup,
staging, insertion or marking, whatever the cache holds — while an
eligible pass marks the returned node's `keepAlive` flag. -/
theorem render_eligibility (st : KeepAlive) (v : VNode)
    (co : ComponentOptions) (hco : v.componentOptions = some co) :
    (((truthyPat st.incl &&
          (!truthyStr (_getComponentName (some co)) ||
            !matchesO st.incl (_getComponentName (some co)))) ||
        (truthyPat st.exclude && truthyStr (_getComponentName (some co)) &&
          matchesO st.exclude (_getComponentName (some co)))) = true →
      render st [v] = some (some v, st)) ∧
    (((truthyPat st.incl &&
          (!truthyStr (_getComponentName (some co)) ||
            !matchesO st.incl (_getComponentName (some co)))) ||
        (truthyPat st.exclude && truthyStr (_getComponentName (some co)) &&
          matchesO st.exclude (_getComponentName (some co)))) = false →
      ∀ d, v.data = some d →
      ∃ v' st', render st [v] = some (some v', st') ∧
        v'.data = some { d with keepAlive := true }) := by
  constructor
  · intro hin
    simp only [render, getFirstComponentChild, hco, hin, if_true]
  · intro hin d hd
    simp only [render, getFirstComponentChild, hco, hin, Bool.false_eq_true,
      if_false]
    cases hhit : cacheGet st.store.cache (resolveKey v co) with
    | some entry =>
      simp only [hhit, hd]
      exact ⟨_, _, rfl, rfl⟩
    | none =>
      simp only [hhit, hd]
      exact ⟨_, _, rfl, rfl⟩

/-- Witness for C4: a concrete ineligible pass (the name fails a
configured `include`) is returned untouched with the state unchanged. -/
theorem render_eligibility_witness :
    render
        { store := { cache := [], keys := [], destroyLog := [] }
          incl := some (.arr ["X", "Y"]), exclude := none, max := .absent
          vnodeToCache := none, keyToCache := "", _vnode := none
          slotChildrenReset := false }
        [{ key := none, tag := some "p", componentInstance := none,
           componentOptions :=
             some { Ctor := { cid := 3, ctorName := some "B" },
                    tag := some "b-comp" },
           data := some { keepAlive := false } }] =
      some
        (some { key := none, tag := some "p", componentInstance := none,
                componentOptions :=
                  some { Ctor := { cid := 3, ctorName := some "B" },
                         tag := some "b-comp" },
                data := some { keepAlive := false } },
         { store := { cache := [], keys := [], destroyLog := [] }
           incl := some (.arr ["X", "Y"]), exclude := none, max := .absent
           vnodeToCache := none, keyToCache := "", _vnode := none
           slotChildrenReset := false }) :=
  (render_eligibility
      { store := { cache := [], keys := [], destroyLog := [] }
        incl := some (.arr ["X", "Y"]), exclude := none, max := .absent
        vnodeToCache := none, keyToCache := "", _vnode := none
        slotChildrenReset := false }
      { key := none, tag := some "p", componentInstance := none,
        componentOptions :=
          some { Ctor := { cid := 3, ctorName := some "B" },
                 tag := some "b-comp" },
        data := some { keepAlive := false } }
      { Ctor := { cid := 3, ctorName := some "B" }, tag := some "b-comp" }
      rfl).1 (by decide)

/-! ## C3: cache hit -/

/-- C3: an eligible render pass whose resolved key is cached binds the
outgoing node to the cached entry's instance handle (the very same
handle) and makes the key most recently used: it is removed from its
current position in the order and re-appended at the tail, and a
duplicate-free order stays duplicate-free with the key last. -/
theorem render_cache_hit (st : KeepAlive) (v : VNode) (co : ComponentOptions)
    (entry : CacheEntry) (d : VNodeData)
    (hco : v.componentOptions = some co)
    (helig :
      ((truthyPat st.incl &&
          (!truthyStr (_getComponentName (some co)) ||
            !matchesO st.incl (_getComponentName (some co)))) ||
        (truthyPat st.exclude && truthyStr (_getComponentName (some co)) &&
          matchesO st.exclude (_getComponentName (some co)))) = false)
    (hhit : cacheGet st.store.cache (resolveKey v co) = some entry)
    (hdata : v.data = some d) :
    render st [v] =
      some
        (some { v with componentInstance := entry.componentInstance,
                       data := some { d with keepAlive := true } },
         { st with
           store :=
             { st.store with
               keys := removeFirst st.store.keys (resolveKey v co) ++
                 [resolveKey v co] } }) ∧
    (st.store.keys.Nodup →
      (removeFirst st.store.keys (resolveKey v co) ++
          [resolveKey v co]).Nodup ∧
      (removeFirst st.store.keys (resolveKey v co) ++
          [resolveKey v co]).getLast? = some (resolveKey v co)) := by
  constructor
  · simp only [render, getFirstComponentChild, hco, helig, Bool.false_eq_true,
      if_false, hhit, hdata]
  · intro hnd
    refine ⟨?_, ?_⟩
    · rw [List.nodup_append]
      refine ⟨nodup_removeFirst _ _ hnd, List.nodup_singleton _, ?_⟩
      intro a ha hb
      rw [List.mem_singleton] at hb
      subst hb
      exact not_mem_removeFirst_self _ _ hnd ha
    · rw [List.getLast?_concat]

/-- Witness for C3: a concrete cache hit binds the cached handle `1` and
re-appends the key. -/
theorem render_cache_hit_witness :
    render
        { store :=
            { cache :=
                [("3::b-comp", some { name := some "Foo", tag := some "div",
                                      componentInstance := some 1 })]
              keys := ["3::b-comp", "z"], destroyLog := [] }
          incl := none, exclude := none, max := .absent
          vnodeToCache := none, keyToCache := "", _vnode := none
          slotChildrenReset := false }
        [{ key := none, tag := some "p", componentInstance := some 9,
           componentOptions :=
             some { Ctor := { cid := 3, ctorName := some "B" },
                    tag := some "b-comp" },
           data := some { keepAlive := false } }] =
      some
        (some { key := none, tag := some "p",
                componentInstance := some 1,
                componentOptions :=
                  some { Ctor := { cid := 3, ctorName := some "B" },
                         tag := some "b-comp" },
                data := some { keepAlive := true } },
         { store :=
             { cache :=
                 [("3::b-comp", some { name := some "Foo", tag := some "div",
                                       componentInstance := some 1 })]
               keys :=
                 removeFirst ["3::b-comp", "z"]
                     (resolveKey
                       { key := none, tag := some "p",
                         componentInstance := some 9,
                         componentOptions :=
                           some { Ctor := { cid := 3, ctorName := some "B" },
                                  tag := some "b-comp" },
                         data := some { keepAlive := false } }
                       { Ctor := { cid := 3, ctorName := some "B" },
                         tag := some "b-comp" }) ++
                   [resolveKey
                     { key := none, tag := some "p",
                       componentInstance := some 9,
                       componentOptions :=
                         some { Ctor := { cid := 3, ctorName := some "B" },
                                tag := some "b-comp" },
                       data := some { keepAlive := false } }
                     { Ctor := { cid := 3, ctorName := some "B" },
                       tag := some "b-comp" }]
               destroyLog := [] }
           incl := none, exclude := none, max := .absent
           vnodeToCache := none, keyToCache := "", _vnode := none
           slotChildrenReset := false }) :=
  (render_cache_hit
      { store :=
          { cache :=
              [("3::b-comp", some { name := some "Foo", tag := some "div",
                                    componentInstance := some 1 })]
            keys := ["3::b-comp", "z"], destroyLog := [] }
        incl := none, exclude := none, max := .absent
        vnodeToCache := none, keyToCache := "", _vnode := none
        slotChildrenReset := false }
      { key := none, tag := some "p", componentInstance := some 9,
        componentOptions :=
          some { Ctor := { cid := 3, ctorName := some "B" },
                 tag := some "b-comp" },
        data := some { keepAlive := false } }
      { Ctor := { cid := 3, ctorName := some "B" }, tag := some "b-comp" }
      { name := some "Foo", tag := some "div", componentInstance := some 1 }
      { keepAlive := false }
      rfl (by decide) (by decide) rfl).1

/-! ## C6: filter-change sweeps -/

theorem pair_mem_of_cacheGet_some (c : RecordC) (k : String) (e : CacheEntry)
    (h : cacheGet c k = some e) : (k, some e) ∈ c := by
  induction c with
  | nil => exact Option.noConfusion h
  | cons p rest ih =>
    obtain ⟨pk, pv⟩ := p
    by_cases hp : pk = k
    · subst hp
      rw [cacheGet, recGet, if_pos rfl] at h
      cases pv with
      | none => exact Option.noConfusion h
      | some e' =>
        simp only [Option.some.injEq] at h
        subst h
        exact List.mem_cons_self _ _
    · rw [cacheGet, recGet, if_neg hp] at h
      exact List.mem_cons_of_mem _ (ih h)

theorem entriesOk_spec (filter : String → Bool) (c : RecordC)
    (hok : entriesOkB filter c = true) (k : String) (e : CacheEntry)
    (he : cacheGet c k = some e) (ht : sweepTargetB filter e = true) :
    e.componentInstance.isSome = true := by
  have hmem := pair_mem_of_cacheGet_some c k e he
  have h2 : (!sweepTargetB filter e || e.componentInstance.isSome) = true :=
    (List.all_eq_true.mp hok) _ hmem
  rw [ht] at h2
  simpa using h2

/-- A sweep step at a key whose entry is absent or not a sweep target is
the identity. -/
theorem pruneStep_of_not_target (cur : Option VNode) (filter : String → Bool)
    (s : Store) (k : String)
    (h : ∀ e, cacheGet s.cache k = some e → sweepTargetB filter e = false) :
    pruneStep cur filter s k = some s := by
  cases hget : cacheGet s.cache k with
  | none => simp only [pruneStep, hget]
  | some e =>
    have := h e hget
    simp only [sweepTargetB] at this
    cases hn : e.name with
    | none => simp only [pruneStep, hget, hn]
    | some n =>
      rw [hn] at this
      have hb : (n != "" && !filter n) = false := this
      simp [pruneStep, hget, hn, hb]

/-- A sweep step at a live sweep target is the eviction of that key. -/
theorem pruneStep_of_target (cur : Option VNode) (filter : String → Bool)
    (s : Store) (k : String) (e : CacheEntry)
    (hget : cacheGet s.cache k = some e)
    (ht : sweepTargetB filter e = true) :
    pruneStep cur filter s k = pruneCacheEntry s k cur := by
  simp only [sweepTargetB] at ht
  cases hn : e.name with
  | none => rw [hn] at ht; exact Bool.noConfusion ht
  | some n =>
    rw [hn] at ht
    have hb : (n != "" && !filter n) = true := ht
    simp [pruneStep, hget, hn, hb]

/-- Eviction of a live entry with a present instance handle succeeds, and
its destroy-log extension is exactly the guarded instances. -/
theorem pruneCacheEntry_target_success (s : Store) (k : String)
    (cur : Option VNode) (e : CacheEntry)
    (hget : cacheGet s.cache k = some e)
    (hinst : e.componentInstance.isSome = true) :
    ∃ s', pruneCacheEntry s k cur = some s' ∧
      s'.cache = recSet s.cache k none ∧
      s'.keys = removeFirst s.keys k ∧
      (∃ tl, s'.destroyLog = s.destroyLog ++ tl ∧
        ∀ i ∈ tl, e.componentInstance = some i ∧
          destroyGuard cur e = true) ∧
      (∀ i, e.componentInstance = some i → destroyGuard cur e = true →
        i ∈ s'.destroyLog) := by
  obtain ⟨i, hi⟩ := Option.isSome_iff_exists.mp hinst
  by_cases hg : destroyGuard cur e = true
  · refine ⟨{ cache := recSet s.cache k none, keys := removeFirst s.keys k,
              destroyLog := s.destroyLog ++ [i] }, ?_, rfl, rfl,
      ⟨[i], rfl, ?_⟩, ?_⟩
    · simp only [pruneCacheEntry, hget, hg, hi, if_true]
    · intro j hj
      rw [List.mem_singleton] at hj
      subst hj
      exact ⟨hi, hg⟩
    · intro j hj _
      rw [hi] at hj
      rcases Option.some.inj hj with rfl
      simp
  · have hg' : destroyGuard cur e = false := Bool.eq_false_iff.mpr hg
    refine ⟨{ cache := recSet s.cache k none, keys := removeFirst s.keys k,
              destroyLog := s.destroyLog }, ?_, rfl, rfl,
      ⟨[], by simp, by simp⟩, ?_⟩
    · simp only [pruneCacheEntry, hget, hg', Bool.false_eq_true, if_false]
    · intro j _ hgj
      exact absurd hgj hg


/-- The sweep loop over a duplicate-free list of keys: it evicts exactly
the live sweep targets among them, leaves every other key's entry and
order position alone, and extends the destroy log only by guarded target
instances. -/
theorem pruneFold_spec (cur : Option VNode) (filter : String → Bool) :
    ∀ (ks : List String) (s : Store),
    ks.Nodup → s.keys.Nodup →
    (∀ k ∈ ks, ∀ e, cacheGet s.cache k = some e →
        sweepTargetB filter e = true → e.componentInstance.isSome = true) →
    ∃ s', ks.foldlM (pruneStep cur filter) s = some s' ∧
      s'.keys.Nodup ∧
      (∀ k, k ∉ ks → cacheGet s'.cache k = cacheGet s.cache k) ∧
      (∀ k, k ∈ s'.keys → k ∈ s.keys) ∧
      (∀ k, k ∈ s.keys →
        k ∈ s'.keys ∨ (k ∈ ks ∧ ∃ e, cacheGet s.cache k = some e ∧
          sweepTargetB filter e = true)) ∧
      (∀ k, k ∈ ks → ∀ e, cacheGet s.cache k = some e →
        (sweepTargetB filter e = true →
          cacheGet s'.cache k = none ∧ k ∉ s'.keys ∧
          (∀ i, e.componentInstance = some i → destroyGuard cur e = true →
            i ∈ s'.destroyLog)) ∧
        (sweepTargetB filter e = false → cacheGet s'.cache k = some e)) ∧
      (∃ tl, s'.destroyLog = s.destroyLog ++ tl ∧
        ∀ i ∈ tl, ∃ k, k ∈ ks ∧ ∃ e, cacheGet s.cache k = some e ∧
          sweepTargetB filter e = true ∧ destroyGuard cur e = true ∧
          e.componentInstance = some i) := by
  intro ks
  induction ks with
  | nil =>
    intro s _ hknd _
    exact ⟨s, rfl, hknd, fun k _ => rfl, fun k h => h,
      fun k h => Or.inl h, fun k h => absurd h (List.not_mem_nil k),
      [], by simp, by simp⟩
  | cons k1 rest ih =>
    intro s hnd hknd hok
    obtain ⟨hk1rest, hrestnd⟩ := List.nodup_cons.mp hnd
    by_cases hcase : ∃ e, cacheGet s.cache k1 = some e ∧
        sweepTargetB filter e = true
    · -- k1 is a live sweep target: this step evicts it.
      obtain ⟨e1, hget1, ht1⟩ := hcase
      have hinst1 : e1.componentInstance.isSome = true :=
        hok k1 (List.mem_cons_self _ _) e1 hget1 ht1
      obtain ⟨s1, hstep1, hc1, hk1, ⟨tl1, hlog1, htl1⟩, hdest1⟩ :=
        pruneCacheEntry_target_success s k1 cur e1 hget1 hinst1
      have hstep : pruneStep cur filter s k1 = some s1 := by
        rw [pruneStep_of_target cur filter s k1 e1 hget1 ht1, hstep1]
      have hknd1 : s1.keys.Nodup := by
        rw [hk1]; exact nodup_removeFirst _ _ hknd
      have hok1 : ∀ k ∈ rest, ∀ e, cacheGet s1.cache k = some e →
          sweepTargetB filter e = true → e.componentInstance.isSome = true := by
        intro k hk e hge ht
        have hne : k ≠ k1 := fun h => hk1rest (h ▸ hk)
        rw [hc1, cacheGet_recSet_ne _ _ _ _ hne] at hge
        exact hok k (List.mem_cons_of_mem _ hk) e hge ht
      obtain ⟨s', hfold, hnd', hout, hsub, hor, hks, tl', hlog', htl'⟩ :=
        ih s1 hrestnd hknd1 hok1
      have hfoldeq : (k1 :: rest).foldlM (pruneStep cur filter) s = some s' := by
        rw [List.foldlM_cons, hstep]
        exact hfold
      refine ⟨s', hfoldeq, hnd', ?_, ?_, ?_, ?_, ?_⟩
      · -- keys outside k1 :: rest are untouched in the cache
        intro k hk
        have hkr : k ∉ rest := fun h => hk (List.mem_cons_of_mem _ h)
        have hne : k ≠ k1 := fun h => hk (h ▸ List.mem_cons_self _ _)
        rw [hout k hkr, hc1, cacheGet_recSet_ne _ _ _ _ hne]
      · -- the final order only holds keys of the initial order
        intro k hk
        exact mem_of_mem_removeFirst _ _ _ (hk1 ▸ hsub k hk)
      · -- an initial-order key either survives or is a swept target
        intro k hk
        by_cases hne : k = k1
        · subst hne
          exact Or.inr ⟨List.mem_cons_self _ _, e1, hget1, ht1⟩
        · have hk1' : k ∈ s1.keys := by
            rw [hk1]; exact mem_removeFirst_of_ne _ _ _ hk hne
          rcases hor k hk1' with h | ⟨hkr, e, hge, ht⟩
          · exact Or.inl h
          · rw [hc1, cacheGet_recSet_ne _ _ _ _ hne] at hge
            exact Or.inr ⟨List.mem_cons_of_mem _ hkr, e, hge, ht⟩
      · -- per-key conclusions
        intro k hk e hge
        rcases List.mem_cons.mp hk with rfl | hkr
        · have he1 : e = e1 := by
            rw [hget1] at hge
            exact (Option.some.inj hge).symm
          subst he1
          constructor
          · intro _
            have hkout : cacheGet s'.cache k = none := by
              rw [hout k hk1rest, hc1, cacheGet_recSet_self]
            refine ⟨hkout, ?_, ?_⟩
            · intro hmem
              have := hsub k hmem
              rw [hk1] at this
              exact not_mem_removeFirst_self _ _ hknd this
            · intro i hi hg
              have : i ∈ s1.destroyLog := hdest1 i hi hg
              rw [hlog']
              exact List.mem_append_left _ this
          · intro hf
            rw [hf] at ht1
            exact Bool.noConfusion ht1
        · have hne : k ≠ k1 := fun h => hk1rest (h ▸ hkr)
          have hge1 : cacheGet s1.cache k = some e := by
            rw [hc1, cacheGet_recSet_ne _ _ _ _ hne]
            exact hge
          exact hks k hkr e hge1
      · -- the destroy log grows only by guarded target instances
        refine ⟨tl1 ++ tl', by rw [hlog', hlog1, List.append_assoc], ?_⟩
        intro i hi
        rcases List.mem_append.mp hi with hi | hi
        · obtain ⟨hie, hig⟩ := htl1 i hi
          exact ⟨k1, List.mem_cons_self _ _, e1, hget1, ht1, hig, hie⟩
        · obtain ⟨k, hkr, e, hge, ht, hg, hie⟩ := htl' i hi
          have hne : k ≠ k1 := fun h => hk1rest (h ▸ hkr)
          rw [hc1, cacheGet_recSet_ne _ _ _ _ hne] at hge
          exact ⟨k, List.mem_cons_of_mem _ hkr, e, hge, ht, hg, hie⟩
    · -- k1 is absent, a tombstone, or not a sweep target: identity step.
      have hnt : ∀ e, cacheGet s.cache k1 = some e →
          sweepTargetB filter e = false := by
        intro e hge
        by_contra hb
        exact hcase ⟨e, hge, eq_true_of_ne_false hb⟩
      have hstep : pruneStep cur filter s k1 = some s :=
        pruneStep_of_not_target cur filter s k1 hnt
      have hok1 : ∀ k ∈ rest, ∀ e, cacheGet s.cache k = some e →
          sweepTargetB filter e = true → e.componentInstance.isSome = true :=
        fun k hk => hok k (List.mem_cons_of_mem _ hk)
      obtain ⟨s', hfold, hnd', hout, hsub, hor, hks, tl', hlog', htl'⟩ :=
        ih s hrestnd hknd hok1
      have hfoldeq : (k1 :: rest).foldlM (pruneStep cur filter) s = some s' := by
        rw [List.foldlM_cons, hstep]
        exact hfold
      refine ⟨s', hfoldeq, hnd', ?_, hsub, ?_, ?_, ?_⟩
      · intro k hk
        exact hout k (fun h => hk (List.mem_cons_of_mem _ h))
      · intro k hk
        rcases hor k hk with h | ⟨hkr, h⟩
        · exact Or.inl h
        · exact Or.inr ⟨List.mem_cons_of_mem _ hkr, h⟩
      · intro k hk e hge
        rcases List.mem_cons.mp hk with rfl | hkr
        · constructor
          · intro ht
            rw [hnt e hge] at ht
            exact Bool.noConfusion ht
          · intro _
            rw [hout k hk1rest]
            exact hge
        · exact hks k hkr e hge
      · refine ⟨tl', hlog', ?_⟩
        intro i hi
        obtain ⟨k, hkr, h⟩ := htl' i hi
        exact ⟨k, List.mem_cons_of_mem _ hkr, h⟩

/-- C6: a filter-change sweep (`pruneCache` with a predicate) evicts
exactly the live entries whose name is truthy and fails the predicate,
with the currently displayed node as the destroy guard, and touches no
other entry: non-target entries (in particular all entries with an absent
name) keep their cache entry and their place in the key order, and the
destroy log grows only by instances of guarded swept targets. -/
theorem pruneCache_spec (st : KeepAlive) (filter : String → Bool)
    (hkeys : st.store.keys.Nodup)
    (hcache : (st.store.cache.map Prod.fst).Nodup)
    (hok : entriesOkB filter st.store.cache = true) :
    ∃ st', pruneCache st filter = some st' ∧
      st'.store.keys.Nodup ∧
      (∀ k e, cacheGet st.store.cache k = some e →
        (sweepTargetB filter e = true →
          cacheGet st'.store.cache k = none ∧ k ∉ st'.store.keys ∧
          (∀ i, e.componentInstance = some i →
            destroyGuard st._vnode e = true → i ∈ st'.store.destroyLog)) ∧
        (sweepTargetB filter e = false →
          cacheGet st'.store.cache k = some e)) ∧
      (∀ k, k ∈ st'.store.keys → k ∈ st.store.keys) ∧
      (∀ k, k ∈ st.store.keys →
        k ∈ st'.store.keys ∨ ∃ e, cacheGet st.store.cache k = some e ∧
          sweepTargetB filter e = true) ∧
      (∃ tl, st'.store.destroyLog = st.store.destroyLog ++ tl ∧
        ∀ i ∈ tl, ∃ k e, cacheGet st.store.cache k = some e ∧
          sweepTargetB filter e = true ∧ destroyGuard st._vnode e = true ∧
          e.componentInstance = some i) := by
  have hokAll : ∀ k ∈ st.store.cache.map Prod.fst, ∀ e,
      cacheGet st.store.cache k = some e → sweepTargetB filter e = true →
      e.componentInstance.isSome = true :=
    fun k _ e he ht => entriesOk_spec filter st.store.cache hok k e he ht
  obtain ⟨s', hfold, hnd', hout, hsub, hor, hks, htl⟩ :=
    pruneFold_spec st._vnode filter (st.store.cache.map Prod.fst) st.store
      hcache hkeys hokAll
  refine ⟨{ st with store := s', slotChildrenReset := true }, ?_, hnd', ?_,
    hsub, ?_, ?_⟩
  · unfold pruneCache
    rw [hfold]
    rfl
  · intro k e he
    have hmem : k ∈ st.store.cache.map Prod.fst :=
      mem_of_cacheGet_some _ _ _ he
    exact hks k hmem e he
  · intro k hk
    rcases hor k hk with h | ⟨_, h⟩
    · exact Or.inl h
    · exact Or.inr h
  · obtain ⟨tl, h1, h2⟩ := htl
    refine ⟨tl, h1, fun i hi => ?_⟩
    obtain ⟨k, _, e, h⟩ := h2 i hi
    exact ⟨k, e, h⟩

/-- Witness for C6 at the concrete two-entry store: the entry named
`"Foo"` fails the predicate and is swept, the nameless entry survives. -/
theorem pruneCache_spec_witness :
    ∃ st', pruneCache sweepDemoState sweepDemoFilter = some st' ∧
      st'.store.keys.Nodup ∧
      (∀ k e, cacheGet sweepDemoState.store.cache k = some e →
        (sweepTargetB sweepDemoFilter e = true →
          cacheGet st'.store.cache k = none ∧ k ∉ st'.store.keys ∧
          (∀ i, e.componentInstance = some i →
            destroyGuard sweepDemoState._vnode e = true →
            i ∈ st'.store.destroyLog)) ∧
        (sweepTargetB sweepDemoFilter e = false →
          cacheGet st'.store.cache k = some e)) ∧
      (∀ k, k ∈ st'.store.keys → k ∈ sweepDemoState.store.keys) ∧
      (∀ k, k ∈ sweepDemoState.store.keys →
        k ∈ st'.store.keys ∨
        ∃ e, cacheGet sweepDemoState.store.cache k = some e ∧
          sweepTargetB sweepDemoFilter e = true) ∧
      (∃ tl, st'.store.destroyLog =
          sweepDemoState.store.destroyLog ++ tl ∧
        ∀ i ∈ tl, ∃ k e, cacheGet sweepDemoState.store.cache k = some e ∧
          sweepTargetB sweepDemoFilter e = true ∧
          destroyGuard sweepDemoState._vnode e = true ∧
          e.componentInstance = some i) :=
  pruneCache_spec sweepDemoState sweepDemoFilter (by decide) (by decide)
    (by decide)

/-! ## C1: capacity invariant -/

theorem nodup_append_singleton (l : List String) (k : String)
    (hnd : l.Nodup) (hk : k ∉ l) : (l ++ [k]).Nodup := by
  rw [List.nodup_append]
  refine ⟨hnd, List.nodup_singleton _, ?_⟩
  intro a ha hb
  rw [List.mem_singleton] at hb
  subst hb
  exact hk ha

theorem cacheGet_of_pair_mem (c : RecordC) (k : String) (e : CacheEntry)
    (hnd : (c.map Prod.fst).Nodup) (h : (k, some e) ∈ c) :
    cacheGet c k = some e := by
  induction c with
  | nil => cases h
  | cons p rest ih =>
    obtain ⟨pk, pv⟩ := p
    have hnd' : (pk :: rest.map Prod.fst).Nodup := by simpa using hnd
    rcases List.nodup_cons.mp hnd' with ⟨hpk, hrest⟩
    rcases List.mem_cons.mp h with heq | hmem
    · injection heq with h1 h2
      subst h1
      subst h2
      rw [cacheGet, recGet, if_pos rfl]
    · have hkmem : k ∈ rest.map Prod.fst :=
        List.mem_map.mpr ⟨(k, some e), hmem, rfl⟩
      have hne : ¬ pk = k := fun hpk' => hpk (hpk' ▸ hkmem)
      rw [cacheGet, recGet, if_neg hne]
      exact ih hrest hmem

theorem liveCount_le (c : RecordC) (keys : List String)
    (hcnd : (c.map Prod.fst).Nodup) (hknd : keys.Nodup)
    (hlo : ∀ k', (cacheGet c k').isSome = true → k' ∈ keys) :
    liveCount c ≤ keys.length := by
  have hsub : (c.filter (fun p => p.2.isSome)).map Prod.fst ⊆ keys := by
    intro x hx
    obtain ⟨p, hp, hpx⟩ := List.mem_map.mp hx
    obtain ⟨pk, pv⟩ := p
    obtain ⟨hpc, hpl⟩ := List.mem_filter.mp hp
    obtain ⟨e, he⟩ := Option.isSome_iff_exists.mp hpl
    subst he
    subst hpx
    apply hlo
    rw [cacheGet_of_pair_mem c pk e hcnd hpc]
    rfl
  have hsl : (c.filter (fun p => p.2.isSome)).Sublist c :=
    List.filter_sublist c
  have hnds : ((c.filter (fun p => p.2.isSome)).map Prod.fst).Nodup :=
    (hsl.map Prod.fst).nodup hcnd
  have hle := (hnds.subperm hsub).length_le
  rw [List.length_map] at hle
  exact hle

/-- One staged commit under `max = N ≥ 1`: it preserves the capacity and
lock-step invariants, and on a breach (`|keys| = N` before the commit)
evicts exactly the oldest key, the head of the order. -/
theorem cacheVNode_step (N : Nat) (st : KeepAlive) (v : VNode) (k : String)
    (hN : 1 ≤ N) (hmax : st.max = .num (N : Int))
    (hstage : st.vnodeToCache = some v) (hkey : st.keyToCache = k)
    (hlen : st.store.keys.length ≤ N)
    (hnd : st.store.keys.Nodup)
    (hcnd : (st.store.cache.map Prod.fst).Nodup)
    (hfresh : k ∉ st.store.keys)
    (hlive : ∀ k' ∈ st.store.keys, ∃ e, cacheGet st.store.cache k' = some e ∧
        e.componentInstance.isSome = true)
    (hliveonly : ∀ k', (cacheGet st.store.cache k').isSome = true →
        k' ∈ st.store.keys)
    (hinst : v.componentInstance.isSome = true) :
    ∃ st', cacheVNode st = some st' ∧
      st'.max = st.max ∧
      st'.vnodeToCache = none ∧
      st'.store.keys.length ≤ N ∧
      st'.store.keys.Nodup ∧
      (st'.store.cache.map Prod.fst).Nodup ∧
      (∀ k' ∈ st'.store.keys, ∃ e, cacheGet st'.store.cache k' = some e ∧
          e.componentInstance.isSome = true) ∧
      (∀ k', (cacheGet st'.store.cache k').isSome = true →
          k' ∈ st'.store.keys) ∧
      (∀ x ∈ st'.store.keys, x ∈ st.store.keys ∨ x = k) ∧
      (st.store.keys.length < N → st'.store.keys = st.store.keys ++ [k]) ∧
      (st.store.keys.length = N →
        st'.store.keys = st.store.keys.tail ++ [k] ∧
        cacheGet st'.store.cache st.store.keys.headI = none) := by
  subst hkey
  by_cases hbreach : st.store.keys.length = N
  · -- capacity breach: the pushed key makes the order one too long
    obtain ⟨k0, rest, hkeq⟩ : ∃ k0 rest, st.store.keys = k0 :: rest := by
      cases hk : st.store.keys with
      | nil =>
        rw [hk] at hbreach
        simp at hbreach
        omega
      | cons a l => exact ⟨a, l, rfl⟩
    have hbr : maxExceeded st.max
        (st.store.keys ++ [st.keyToCache]).length = true := by
      rw [hmax]
      simp only [maxExceeded, MaxVal.truthy, MaxVal.parseInt,
        List.length_append, List.length_singleton, hbreach,
        Bool.and_eq_true, bne_iff_ne, decide_eq_true_eq]
      constructor
      · intro h
        omega
      · push_cast
        omega
    have hk0mem : k0 ∈ st.store.keys := by
      rw [hkeq]
      exact List.mem_cons_self _ _
    have hk0ne : k0 ≠ st.keyToCache := fun h => hfresh (h ▸ hk0mem)
    obtain ⟨e0, hget0, hinst0⟩ := hlive k0 hk0mem
    have hget1 : cacheGet
        (recSet st.store.cache st.keyToCache
          (some { name := _getComponentName v.componentOptions
                  tag := v.tag
                  componentInstance := v.componentInstance })) k0 = some e0 := by
      rw [cacheGet_recSet_ne _ _ _ _ hk0ne]
      exact hget0
    obtain ⟨s2, hs2, hc2, hk2, _, _⟩ :=
      pruneCacheEntry_target_success
        { cache := recSet st.store.cache st.keyToCache
            (some { name := _getComponentName v.componentOptions
                    tag := v.tag
                    componentInstance := v.componentInstance })
          keys := k0 :: (rest ++ [st.keyToCache])
          destroyLog := st.store.destroyLog } k0 st._vnode e0 hget1 hinst0
    have hk2' : s2.keys = rest ++ [st.keyToCache] := by
      rw [hk2, removeFirst_cons_self]
    have hrestnd : rest.Nodup := by
      rw [hkeq] at hnd
      exact (List.nodup_cons.mp hnd).2
    have hk0rest : k0 ∉ rest := by
      rw [hkeq] at hnd
      exact (List.nodup_cons.mp hnd).1
    have hfreshrest : st.keyToCache ∉ rest := by
      intro h
      exact hfresh (hkeq ▸ List.mem_cons_of_mem _ h)
    have hcnd1 : ((recSet st.store.cache st.keyToCache
        (some { name := _getComponentName v.componentOptions
                tag := v.tag
                componentInstance := v.componentInstance })).map
          Prod.fst).Nodup := by
      by_cases hmemc : st.keyToCache ∈ st.store.cache.map Prod.fst
      · rw [recSet_map_fst_of_mem _ _ _ hmemc]
        exact hcnd
      · rw [recSet_map_fst_of_not_mem _ _ _ hmemc]
        exact nodup_append_singleton _ _ hcnd hmemc
    refine ⟨{ st with store := s2, vnodeToCache := none }, ?_, rfl, rfl,
      ?_, ?_, ?_, ?_, ?_, ?_, ?_, ?_⟩
    · have hbr' : maxExceeded st.max
          (k0 :: (rest ++ [st.keyToCache])).length = true := by
        rw [← List.cons_append, ← hkeq]
        exact hbr
      simp only [cacheVNode, hstage, hkeq, List.cons_append, hbr', if_true]
      rw [hs2]
      rfl
    · rw [hk2', List.length_append, List.length_singleton]
      have : st.store.keys.length = rest.length + 1 := by
        rw [hkeq]
        rfl
      omega
    · rw [hk2']
      exact nodup_append_singleton _ _ hrestnd hfreshrest
    · rw [hc2]
      have hk0mem1 : k0 ∈
          ((recSet st.store.cache st.keyToCache
            (some { name := _getComponentName v.componentOptions
                    tag := v.tag
                    componentInstance := v.componentInstance })).map
            Prod.fst) :=
        mem_of_cacheGet_some _ _ _ hget1
      rw [recSet_map_fst_of_mem _ _ _ hk0mem1]
      exact hcnd1
    · intro k' hk'
      rw [hk2'] at hk'
      rcases List.mem_append.mp hk' with hk' | hk'
      · have hne0 : k' ≠ k0 := fun h => hk0rest (h ▸ hk')
        have hnek : k' ≠ st.keyToCache := fun h => hfreshrest (h ▸ hk')
        obtain ⟨e, he, hei⟩ :=
          hlive k' (hkeq ▸ List.mem_cons_of_mem _ hk')
        refine ⟨e, ?_, hei⟩
        rw [hc2, cacheGet_recSet_ne _ _ _ _ hne0,
          cacheGet_recSet_ne _ _ _ _ hnek]
        exact he
      · rw [List.mem_singleton] at hk'
        subst hk'
        refine ⟨{ name := _getComponentName v.componentOptions
                  tag := v.tag
                  componentInstance := v.componentInstance }, ?_, hinst⟩
        rw [hc2, cacheGet_recSet_ne _ _ _ _ (Ne.symm hk0ne),
          cacheGet_recSet_self]
    · intro k' hk'
      rw [hk2']
      by_cases hne0 : k' = k0
      · subst hne0
        rw [hc2, cacheGet_recSet_self] at hk'
        exact Bool.noConfusion hk'
      · rw [hc2, cacheGet_recSet_ne _ _ _ _ hne0] at hk'
        by_cases hnek : k' = st.keyToCache
        · subst hnek
          exact List.mem_append_right _ (List.mem_singleton_self _)
        · rw [cacheGet_recSet_ne _ _ _ _ hnek] at hk'
          have := hliveonly k' hk'
          rw [hkeq] at this
          rcases List.mem_cons.mp this with h | h
          · exact absurd h hne0
          · exact List.mem_append_left _ h
    · intro x hx
      rw [hk2'] at hx
      rcases List.mem_append.mp hx with hx | hx
      · exact Or.inl (hkeq ▸ List.mem_cons_of_mem _ hx)
      · rw [List.mem_singleton] at hx
        exact Or.inr hx
    · intro hlt
      omega
    · intro _
      constructor
      · rw [hk2', hkeq]
        rfl
      · rw [hkeq]
        show cacheGet s2.cache k0 = none
        rw [hc2, cacheGet_recSet_self]
  · -- no breach: the key is appended, nothing is evicted
    have hlt : st.store.keys.length < N := lt_of_le_of_ne hlen hbreach
    have hbr : maxExceeded st.max
        (st.store.keys ++ [st.keyToCache]).length = false := by
      rw [hmax]
      simp only [maxExceeded, MaxVal.truthy, MaxVal.parseInt,
        List.length_append, List.length_singleton]
      cases hN0 : ((N : Int) != 0) with
      | false => rw [Bool.false_and]
      | true =>
        rw [Bool.true_and, decide_eq_false_iff_not]
        push_cast
        omega
    refine ⟨{ st with
        store :=
          { cache := recSet st.store.cache st.keyToCache
              (some { name := _getComponentName v.componentOptions
                      tag := v.tag
                      componentInstance := v.componentInstance })
            keys := st.store.keys ++ [st.keyToCache]
            destroyLog := st.store.destroyLog }
        vnodeToCache := none }, ?_, rfl, rfl, ?_, ?_, ?_, ?_, ?_, ?_, ?_, ?_⟩
    · simp only [cacheVNode, hstage, hbr, Bool.false_eq_true, if_false]
    · rw [List.length_append, List.length_singleton]
      omega
    · exact nodup_append_singleton _ _ hnd hfresh
    · by_cases hmemc : st.keyToCache ∈ st.store.cache.map Prod.fst
      · rw [recSet_map_fst_of_mem _ _ _ hmemc]
        exact hcnd
      · rw [recSet_map_fst_of_not_mem _ _ _ hmemc]
        exact nodup_append_singleton _ _ hcnd hmemc
    · intro k' hk'
      rcases List.mem_append.mp hk' with hk' | hk'
      · have hnek : k' ≠ st.keyToCache := fun h => hfresh (h ▸ hk')
        obtain ⟨e, he, hei⟩ := hlive k' hk'
        refine ⟨e, ?_, hei⟩
        rw [cacheGet_recSet_ne _ _ _ _ hnek]
        exact he
      · rw [List.mem_singleton] at hk'
        subst hk'
        exact ⟨{ name := _getComponentName v.componentOptions
                 tag := v.tag
                 componentInstance := v.componentInstance },
          cacheGet_recSet_self _ _ _, hinst⟩
    · intro k' hk'
      by_cases hnek : k' = st.keyToCache
      · subst hnek
        exact List.mem_append_right _ (List.mem_singleton_self _)
      · rw [cacheGet_recSet_ne _ _ _ _ hnek] at hk'
        exact List.mem_append_left _ (hliveonly k' hk')
    · intro x hx
      rcases List.mem_append.mp hx with hx | hx
      · exact Or.inl hx
      · rw [List.mem_singleton] at hx
        exact Or.inr hx
    · intro _
      rfl
    · intro heq
      exact absurd heq hbreach

/-- Committing any sequence of staged fresh distinct keys holding
materialized instances preserves the capacity and lock-step invariants. -/
theorem commitSeq_spec (N : Nat) (hN : 1 ≤ N) :
    ∀ (l : List (String × VNode)) (st : KeepAlive),
    st.max = .num (N : Int) →
    (l.map Prod.fst).Nodup →
    (∀ kv ∈ l, kv.1 ∉ st.store.keys) →
    (∀ kv ∈ l, (kv.2).componentInstance.isSome = true) →
    st.store.keys.length ≤ N →
    st.store.keys.Nodup →
    (st.store.cache.map Prod.fst).Nodup →
    (∀ k' ∈ st.store.keys, ∃ e, cacheGet st.store.cache k' = some e ∧
        e.componentInstance.isSome = true) →
    (∀ k', (cacheGet st.store.cache k').isSome = true →
        k' ∈ st.store.keys) →
    ∃ st', commitSeq st l = some st' ∧
      st'.store.keys.length ≤ N ∧
      st'.store.keys.Nodup ∧
      (st'.store.cache.map Prod.fst).Nodup ∧
      (∀ k', (cacheGet st'.store.cache k').isSome = true →
          k' ∈ st'.store.keys) := by
  intro l
  induction l with
  | nil =>
    intro st hmax hlnd hfresh hmat hlen hknd hcnd hlive hlo
    exact ⟨st, rfl, hlen, hknd, hcnd, hlo⟩
  | cons kv rest ih =>
    intro st hmax hlnd hfresh hmat hlen hknd hcnd hlive hlo
    obtain ⟨k1, v1⟩ := kv
    obtain ⟨st1, heq, hmax1, _, hlen1, hknd1, hcnd1, hlive1, hlo1, horig1,
        _, _⟩ :=
      cacheVNode_step N
        { st with vnodeToCache := some v1, keyToCache := k1 } v1 k1 hN
        hmax rfl rfl hlen hknd hcnd (hfresh _ (List.mem_cons_self _ _))
        hlive hlo (hmat _ (List.mem_cons_self _ _))
    have hlnd' : (k1 :: rest.map Prod.fst).Nodup := by
      rw [List.map_cons] at hlnd
      exact hlnd
    have hk1rest : k1 ∉ rest.map Prod.fst := (List.nodup_cons.mp hlnd').1
    have hrestnd : (rest.map Prod.fst).Nodup := (List.nodup_cons.mp hlnd').2
    have hfresh1 : ∀ kv' ∈ rest, kv'.1 ∉ st1.store.keys := by
      intro kv' hkv' hmem
      rcases horig1 _ hmem with h | h
      · exact hfresh kv' (List.mem_cons_of_mem _ hkv') h
      · exact hk1rest (h ▸ List.mem_map.mpr ⟨kv', hkv', rfl⟩)
    obtain ⟨st', hseq, hrest⟩ :=
      ih st1 (hmax1.trans hmax) hrestnd hfresh1
        (fun kv' hkv' => hmat kv' (List.mem_cons_of_mem _ hkv'))
        hlen1 hknd1 hcnd1 hlive1 hlo1
    refine ⟨st', ?_, hrest⟩
    have hsc : stageAndCommit st (k1, v1) = some st1 := heq
    unfold commitSeq
    rw [List.foldlM_cons, hsc]
    exact hseq

/-- C1: under a configured capacity `N ≥ 1`, (sequence part) every
sequence of commits of distinct fresh keys carrying materialized
instances, starting from the created state, keeps the key order length
and the live cached entry count at most `N`; and (breach part) one commit
arriving at a full order evicts exactly one entry, the key at the head of
the recency order, leaving the order as its tail plus the new key. -/
theorem cacheVNode_capacity (N : Nat) (hN : 1 ≤ N) :
    (∀ (incl exclude : Option Pattern) (l : List (String × VNode)),
      (l.map Prod.fst).Nodup →
      (∀ kv ∈ l, (kv.2).componentInstance.isSome = true) →
      ∃ st', commitSeq (createdState incl exclude (.num (N : Int))) l =
          some st' ∧
        st'.store.keys.length ≤ N ∧
        liveCount st'.store.cache ≤ N) ∧
    (∀ (st : KeepAlive) (v : VNode) (k : String),
      st.max = .num (N : Int) → st.vnodeToCache = some v →
      st.keyToCache = k →
      st.store.keys.length = N → st.store.keys.Nodup →
      (st.store.cache.map Prod.fst).Nodup → k ∉ st.store.keys →
      (∀ k' ∈ st.store.keys, ∃ e, cacheGet st.store.cache k' = some e ∧
          e.componentInstance.isSome = true) →
      (∀ k', (cacheGet st.store.cache k').isSome = true →
          k' ∈ st.store.keys) →
      v.componentInstance.isSome = true →
      ∃ st', cacheVNode st = some st' ∧
        st'.store.keys = st.store.keys.tail ++ [k] ∧
        st'.store.keys.length = N ∧
        cacheGet st'.store.cache st.store.keys.headI = none) := by
  constructor
  · intro incl exclude l hlnd hmat
    obtain ⟨st', hseq, hlen, hknd, hcnd, hlo⟩ :=
      commitSeq_spec N hN l (createdState incl exclude (.num (N : Int)))
        rfl hlnd
        (fun kv _ => List.not_mem_nil _)
        hmat (Nat.zero_le N) List.nodup_nil List.nodup_nil
        (fun k' hk' => absurd hk' (List.not_mem_nil _))
        (fun k' h => Bool.noConfusion h)
    exact ⟨st', hseq, hlen,
      le_trans (liveCount_le st'.store.cache st'.store.keys hcnd hknd hlo)
        hlen⟩
  · intro st v k hmax hstage hkey hfull hknd hcnd hfresh hlive hlo hinst
    obtain ⟨st', heq, _, _, _, _, _, _, _, _, _, hbr⟩ :=
      cacheVNode_step N st v k hN hmax hstage hkey (le_of_eq hfull)
        hknd hcnd hfresh hlive hlo hinst
    obtain ⟨hkeys', hhead⟩ := hbr hfull
    refine ⟨st', heq, hkeys', ?_, hhead⟩
    rw [hkeys', List.length_append, List.length_singleton,
      List.length_tail, hfull]
    omega

/-- Witness for C1 with `N = 1`: committing two distinct keys keeps at
most one live entry, and a commit into the full one-key store evicts the
head `"x"`. -/
theorem cacheVNode_capacity_witness :
    (∃ st', commitSeq (createdState none none (.num (1 : Int)))
        [("a", { key := none, tag := none, componentInstance := some 11,
                 componentOptions := none, data := none }),
         ("b", { key := none, tag := none, componentInstance := some 12,
                 componentOptions := none, data := none })] = some st' ∧
      st'.store.keys.length ≤ 1 ∧ liveCount st'.store.cache ≤ 1) ∧
    (∃ st', cacheVNode fullState = some st' ∧
      st'.store.keys = fullState.store.keys.tail ++ ["y"] ∧
      st'.store.keys.length = 1 ∧
      cacheGet st'.store.cache fullState.store.keys.headI = none) :=
  ⟨(cacheVNode_capacity 1 le_rfl).1 none none _ (by decide) (by decide),
   (cacheVNode_capacity 1 le_rfl).2 fullState
     { key := none, tag := none, componentInstance := some 7,
       componentOptions := none, data := none } "y"
     rfl rfl rfl rfl (by decide) (by decide) (by decide)
     (by
       intro k' hk'
       simp only [fullState] at hk' ⊢
       rw [List.mem_singleton] at hk'
       subst hk'
       exact ⟨{ name := none, tag := none, componentInstance := some 5 },
         rfl, rfl⟩)
     (by
       intro k' hk'
       simp only [fullState] at hk' ⊢
       by_cases h : "x" = k'
       · rw [← h]
         exact List.mem_singleton_self _
       · have hnone : cacheGet
             [("x", some { name := none, tag := none,
                           componentInstance := some 5 })] k' = none := by
           rw [cacheGet, recGet, if_neg h]
           rfl
         rw [hnone] at hk'
         exact Bool.noConfusion hk')
     rfl⟩
